import Mathlib

/-!
Verification of the universal_auth capability-authorization policy and the
scope-version management subsystem.

Part 1 embeds the OPA/Rego policies of `src/policy/authz.rego`:
the `authz` package's `allow` rules (global exact, bare-wildcard and
trailing-wildcard capability grants, plus two tenant-scoped rules gated on an
active membership) and the `tenant` package's `data_access` rules.

Rego strings are sequences of Unicode codepoints (`count`/`substring` are
codepoint-based), so capability strings are embedded as `List Char`.
Rego's `endswith(c, "*")` together with
`substring(c, 0, count(c) - 1)` is embedded as `c.getLast? == some '*'` and
`c.dropLast`; `startswith` is `List.isPrefixOf`. A rule body whose
expressions must all be defined and true is embedded as a Bool-valued
function that is `false` when a referenced input field is absent
(`Option`/lookup returns `none`).
-/

/-- A capability string, as a sequence of codepoints. -/
abbrev Cap := List Char

/-- Codepoints of a string literal (for concrete inputs). -/
def str (s : String) : Cap := s.toList

/-- A tenant-membership object as the policy reads it:
`input.user.tenant_memberships[t].is_active` and `... .capabilities`. -/
structure TenantMembership where
  is_active : Bool
  capabilities : List Cap
deriving DecidableEq

/-- The user object the `authz` policy reads: `input.user.capabilities` and
`input.user.tenant_memberships` (a map from tenant id to membership). -/
structure AuthzUser where
  capabilities : List Cap
  tenant_memberships : List (Cap × TenantMembership)
deriving DecidableEq

/-- The input document of the `authz` package's `allow` rules:
`input.user`, `input.tenant_id` (may be absent) and
`input.required_capability`. -/
structure AuthzInput where
  user : AuthzUser
  tenant_id : Option Cap
  required_capability : Cap
deriving DecidableEq

/-- Rule 1 of `allow`: `input.user.capabilities[_] == "*"` (admin wildcard). -/
def allowAdminWildcard (i : AuthzInput) : Bool :=
  i.user.capabilities.any (fun c => c == str "*")

/-- Rule 2 of `allow`: `input.user.capabilities[_] == input.required_capability`. -/
def allowExact (i : AuthzInput) : Bool :=
  i.user.capabilities.any (fun c => c == i.required_capability)

/-- The per-capability test of rule 3 of `allow`:
`endswith(capability, "*")`, `prefix := substring(capability, 0, count(capability) - 1)`,
`startswith(input.required_capability, prefix)`. -/
def wildcardGrantMatches (c req : Cap) : Bool :=
  c.getLast? == some '*' && c.dropLast.isPrefixOf req

/-- Rule 3 of `allow`: some granted capability ends in `"*"` and its literal
stem is a string prefix of the required capability. -/
def allowWildcard (i : AuthzInput) : Bool :=
  i.user.capabilities.any (fun c => wildcardGrantMatches c i.required_capability)

/-- Rules 4 and 5 of `allow` (tenant-specific authorization): `input.tenant_id`
is present, `input.user.tenant_memberships[input.tenant_id]` exists, its
`is_active == true`, and its `capabilities` contain `input.required_capability`
(rule 4) or `"*"` (rule 5). -/
def allowTenant (i : AuthzInput) : Bool :=
  match i.tenant_id with
  | none => false
  | some t =>
    match i.user.tenant_memberships.lookup t with
    | none => false
    | some m =>
      m.is_active &&
        (m.capabilities.any (fun c => c == i.required_capability) ||
         m.capabilities.any (fun c => c == str "*"))

/-- The `authz` package's `allow`: default `false`, and the disjunction of its
five `allow if { ... }` rules. -/
def allow (i : AuthzInput) : Bool :=
  allowAdminWildcard i || allowExact i || allowWildcard i || allowTenant i

/-- The input document of the `tenant` package's `data_access` rules:
`input.user`, `input.tenant_id` and `input.requested_tenant_id`. -/
structure TenantDataInput where
  user : AuthzUser
  tenant_id : Option Cap
  requested_tenant_id : Option Cap
deriving DecidableEq

/-- The `tenant` package's `data_access`: default deny; the first rule needs
`input.tenant_id` and `input.requested_tenant_id` present and equal and the
membership at `input.tenant_id` to exist with `is_active == true`; the second
rule needs `input.user.capabilities[_] == "*"`. -/
def data_access (i : TenantDataInput) : Bool :=
  (match i.tenant_id with
   | none => false
   | some t =>
     match i.requested_tenant_id with
     | none => false
     | some rt =>
       t == rt &&
         (match i.user.tenant_memberships.lookup t with
          | none => false
          | some m => m.is_active))
  || i.user.capabilities.any (fun c => c == str "*")

/-- A user holding only the wildcard grant `"chat.*"`, requesting
`"chat.completions.stream"`. -/
def chatStreamRequest : AuthzInput :=
  ⟨⟨[str "chat.*"], []⟩, none, str "chat.completions.stream"⟩

/-- A user holding only the wildcard grant `"chat.*"`, requesting
`"embeddings.create"`. -/
def embeddingsRequest : AuthzInput :=
  ⟨⟨[str "chat.*"], []⟩, none, str "embeddings.create"⟩

/-- A user with no global grants whose membership in tenant `"t1"` is
suspended (`is_active = false`) while its capability list still contains the
requested `"chat.completions"`. -/
def suspendedTenantRequest : AuthzInput :=
  ⟨⟨[], [(str "t1", ⟨false, [str "chat.completions"]⟩)]⟩,
    some (str "t1"), str "chat.completions"⟩

/-- The same suspended membership in tenant `"t1"`, but the user also holds
the global wildcard grant `"chat.*"` matching the request. -/
def suspendedWithGlobalRequest : AuthzInput :=
  ⟨⟨[str "chat.*"], [(str "t1", ⟨false, [str "chat.completions"]⟩)]⟩,
    some (str "t1"), str "chat.completions"⟩

/-- A user holding only the mid-segment wildcard grant `"chat.c*"`,
requesting `"chat.completions"`. -/
def midSegmentRequest : AuthzInput :=
  ⟨⟨[str "chat.c*"], []⟩, none, str "chat.completions"⟩

/-- A user holding only the wildcard grant `"chat.*"`, requesting the bare
capability `"chat"`. -/
def bareChatRequest : AuthzInput :=
  ⟨⟨[str "chat.*"], []⟩, none, str "chat"⟩

/-- A same-tenant data request: the user's tenant context and the requested
tenant are both `"t1"`, the membership there is active, and the user holds
no bare global wildcard. -/
def sameTenantDataRequest : TenantDataInput :=
  ⟨⟨[str "user.read"], [(str "t1", ⟨true, []⟩)]⟩,
    some (str "t1"), some (str "t1")⟩

/-- The specification's enumeration of independent grant sources (claim C1,
stated from the spec's words, to be compared with `allow` from the source):
a global capability equal to the request, a global bare-wildcard grant,
a global grant ending in the wildcard marker whose literal stem is a string
prefix of the request, or — when a tenant id is supplied and the membership
in that tenant is active — a tenant-scoped grant equal to the request or a
tenant-scoped bare-wildcard grant. -/
def grantSourceMatches (i : AuthzInput) : Prop :=
  (∃ c ∈ i.user.capabilities, c = i.required_capability) ∨
  (str "*" ∈ i.user.capabilities) ∨
  (∃ c ∈ i.user.capabilities,
     c.getLast? = some '*' ∧ c.dropLast.isPrefixOf i.required_capability = true) ∨
  (∃ t m, i.tenant_id = some t ∧
     i.user.tenant_memberships.lookup t = some m ∧ m.is_active = true ∧
     (i.required_capability ∈ m.capabilities ∨ str "*" ∈ m.capabilities))

/-!
Part 2: the scope-version and session-consistency subsystem. Its code
(`services/scope_manager.py`, `services/session_service.py`) is not among
the repository's files; only `src/docs/SCOPE_MANAGEMENT_IMPLEMENTATION.md`
and the specification describe it. The definitions below are therefore
modelled from the spec (data model §3, ScopeVersionManager §4.1,
SessionRegistry/InvalidationEnforcer §4.2), for one fixed
(user_id, tenant_id) pair — the spec's isolation property makes rows and
event streams of distinct pairs independent.
-/

/-- Modelled from the spec: Bool codepoint-lexicographic comparison, giving
the stable ordering used by the canonical serialization. -/
def capLeB : Cap → Cap → Bool
  | [], _ => true
  | _ :: _, [] => false
  | a :: as, b :: bs =>
    if a < b then true else if b < a then false else capLeB as bs

/-- Modelled from the spec: insertion into a stably ordered list. -/
def insertSorted (x : Cap) : List Cap → List Cap
  | [] => [x]
  | y :: ys => if capLeB x y then x :: y :: ys else y :: insertSorted x ys

/-- Modelled from the spec: insertion sort into the stable order. -/
def sortCaps : List Cap → List Cap
  | [] => []
  | x :: xs => insertSorted x (sortCaps xs)

/-- Modelled from the spec: canonical serialization of a capability or role
set — duplicates removed, stable ordering. -/
def canonicalize (l : List Cap) : List Cap := sortCaps l.dedup

/-- Modelled from the spec: the checksum, a stable digest over the
canonicalized capability+role set, modelled as the canonical serialization
itself (stable and reproducible). -/
def scopeChecksum (caps roles : List Cap) : List Cap × List Cap :=
  (canonicalize caps, canonicalize roles)

/-- Modelled from the spec: the ScopeVersion row of the fixed
(user_id, tenant_id): monotonically increasing version counter, stored
capability and role sets, and their checksum. -/
structure ScopeVersionRow where
  version : Nat
  capabilities : List Cap
  roles : List Cap
  checksum : List Cap × List Cap
deriving DecidableEq

/-- Modelled from the spec: the elements of the second set absent from the
first (the added side of a scope diff; swapping arguments gives the removed
side). -/
def addedIn (old cur : List Cap) : List Cap :=
  cur.filter (fun c => !(old.contains c))

/-- Modelled from the spec: classification of a change event as
role_added/removed, capability_added/removed, or mixed. -/
def changeTypeOf (capAdd capRem roleAdd roleRem : List Cap) : Cap :=
  let capChanged := !capAdd.isEmpty || !capRem.isEmpty
  let roleChanged := !roleAdd.isEmpty || !roleRem.isEmpty
  if capChanged && roleChanged then str "mixed"
  else if capChanged then
    if capRem.isEmpty then str "capability_added"
    else if capAdd.isEmpty then str "capability_removed"
    else str "mixed"
  else
    if roleRem.isEmpty then str "role_added"
    else if roleAdd.isEmpty then str "role_removed"
    else str "mixed"

/-- Modelled from the spec: one ScopeChangeEvent of the fixed
(user_id, tenant_id): the old and new version of the transition, the
added/removed capabilities and roles, and the change classification. -/
structure ScopeChangeEvent where
  old_version : Nat
  new_version : Nat
  changed_capabilities : List Cap × List Cap
  changed_roles : List Cap × List Cap
  change_type : Cap
deriving DecidableEq

/-- Modelled from the spec: the event appended when the checksum of the
freshly resolved sets differs from the row `r`: a transition from
`r.version` to `r.version + 1` carrying the diff. -/
def scopeDiffEvent (r : ScopeVersionRow) (caps roles : List Cap) :
    ScopeChangeEvent :=
  let capAdd := addedIn r.capabilities caps
  let capRem := addedIn caps r.capabilities
  let roleAdd := addedIn r.roles roles
  let roleRem := addedIn roles r.roles
  ⟨r.version, r.version + 1, (capAdd, capRem), (roleAdd, roleRem),
   changeTypeOf capAdd capRem roleAdd roleRem⟩

/-- Modelled from the spec: the state ScopeVersionManager owns for the fixed
(user_id, tenant_id): the ScopeVersion row (absent until the first
recompute) and the append-only ScopeChangeEvent stream. -/
structure ScopeState where
  row : Option ScopeVersionRow
  events : List ScopeChangeEvent
deriving DecidableEq

/-- The state before any recompute: no row, empty event stream. -/
def initialScopeState : ScopeState := ⟨none, []⟩

/-- Modelled from the spec (§4.1): `recompute(user_id, tenant_id)` applied
to the resolved effective capability/role sets. If no row exists, create it
at version 1 with no emitted event (baseline). If the row exists and the
checksum is unchanged, a no-op. If the checksum changed, increment the
version by one, persist the new sets and checksum, and append one
ScopeChangeEvent describing the diff. -/
def recompute (s : ScopeState) (caps roles : List Cap) : ScopeState :=
  let chk := scopeChecksum caps roles
  match s.row with
  | none => ⟨some ⟨1, caps, roles, chk⟩, s.events⟩
  | some r =>
    if chk = r.checksum then s
    else
      ⟨some ⟨r.version + 1, caps, roles, chk⟩,
       s.events ++ [scopeDiffEvent r caps roles]⟩

/-- A sequence of recompute calls on the fixed (user_id, tenant_id), each
with its resolved (capabilities, roles) input. -/
def runRecomputes (s : ScopeState) (l : List (List Cap × List Cap)) :
    ScopeState :=
  l.foldl (fun st p => recompute st p.1 p.2) s

/-- The stored version of the fixed (user_id, tenant_id); 0 while no row
exists. -/
def storedVersion (s : ScopeState) : Nat :=
  match s.row with
  | none => 0
  | some r => r.version

/-- Modelled from the spec: the SessionScopeRecord captured at session
issuance/refresh: the session id and `scope_version_at_issue`. -/
structure SessionScopeRecord where
  session_id : Cap
  scope_version_at_issue : Nat
deriving DecidableEq

/-- The result alternatives of `Validate(session_id)`. -/
inductive ValidationResult where
  | OK
  | STALE
  | INVALID
deriving DecidableEq

/-- Modelled from the spec (§4.2): `validate(session_id)` fetches the record
and the current version; a captured version strictly below the current one
is STALE, otherwise OK; a failing version lookup (row never computed) fails
closed. -/
def validate (rec : SessionScopeRecord) (s : ScopeState) : ValidationResult :=
  match s.row with
  | none => ValidationResult.INVALID
  | some r =>
    if rec.scope_version_at_issue < r.version then ValidationResult.STALE
    else ValidationResult.OK

/-- The gapless/ordered property of an event stream: every event is a `+1`
transition, and each event's `new_version` is the next event's
`old_version`. -/
def gaplessEvents (l : List ScopeChangeEvent) : Prop :=
  (∀ e ∈ l, e.new_version = e.old_version + 1) ∧
  l.Chain' (fun a b => a.new_version = b.old_version)

/-- The reachability invariant of `ScopeState`: the event stream is gapless,
it is empty while no row exists, and its last event (if any) ends at the
row's current version. -/
def scopeInv (s : ScopeState) : Prop :=
  gaplessEvents s.events ∧
  (s.row = none → s.events = []) ∧
  (∀ r e, s.row = some r → s.events.getLast? = some e →
    e.new_version = r.version)

/-- A ScopeVersion row at version 2 holding the single capability
`"chat"`. -/
def chatRowV2 : ScopeVersionRow :=
  ⟨2, [str "chat"], [], scopeChecksum [str "chat"] []⟩

/-- A scope state whose row is `chatRowV2` and whose event stream is
empty. -/
def chatScopeState : ScopeState := ⟨some chatRowV2, []⟩

/-- A session record captured at scope version 1. -/
def sessionAtV1 : SessionScopeRecord := ⟨str "s1", 1⟩

theorem allowAdminWildcard_iff (i : AuthzInput) :
    allowAdminWildcard i = true ↔ str "*" ∈ i.user.capabilities := by
  simp [allowAdminWildcard, List.any_eq_true]

theorem allowExact_iff (i : AuthzInput) :
    allowExact i = true ↔ ∃ c ∈ i.user.capabilities, c = i.required_capability := by
  simp [allowExact, List.any_eq_true]

theorem allowWildcard_iff (i : AuthzInput) :
    allowWildcard i = true ↔
      ∃ c ∈ i.user.capabilities,
        c.getLast? = some '*' ∧ c.dropLast.isPrefixOf i.required_capability = true := by
  simp [allowWildcard, wildcardGrantMatches, List.any_eq_true]

theorem allowTenant_iff (i : AuthzInput) :
    allowTenant i = true ↔
      ∃ t m, i.tenant_id = some t ∧
        i.user.tenant_memberships.lookup t = some m ∧ m.is_active = true ∧
        (i.required_capability ∈ m.capabilities ∨ str "*" ∈ m.capabilities) := by
  unfold allowTenant
  constructor
  · intro h
    split at h
    · simp at h
    next t ht =>
      split at h
      · simp at h
      next m hm =>
        simp only [Bool.and_eq_true, Bool.or_eq_true, List.any_eq_true,
          beq_iff_eq] at h
        obtain ⟨ha, hc⟩ := h
        refine ⟨t, m, ht, hm, ha, ?_⟩
        rcases hc with ⟨c, hcm, rfl⟩ | ⟨c, hcm, rfl⟩
        · exact Or.inl hcm
        · exact Or.inr hcm
  · rintro ⟨t, m, ht, hm, ha, hc⟩
    simp only [ht, hm, ha, Bool.true_and, Bool.or_eq_true, List.any_eq_true,
      beq_iff_eq]
    rcases hc with h | h
    · exact Or.inl ⟨_, h, rfl⟩
    · exact Or.inr ⟨_, h, rfl⟩

/-- C1: the evaluator's allow decision is deny-by-default and a pure logical
OR over the independent grant sources: `allow` is true exactly when some
grant matches — a global exact grant, a global bare wildcard, a global
trailing-wildcard grant whose literal stem is a string prefix of the request,
or (tenant supplied, membership active) a tenant-scoped exact or
bare-wildcard grant. -/
theorem allow_iff_grant_source_matches (i : AuthzInput) :
    allow i = true ↔ grantSourceMatches i := by
  unfold allow grantSourceMatches
  simp only [Bool.or_eq_true, allowAdminWildcard_iff, allowExact_iff,
    allowWildcard_iff, allowTenant_iff]
  constructor
  · rintro (((h | h) | h) | h)
    · exact Or.inr (Or.inl h)
    · exact Or.inl h
    · exact Or.inr (Or.inr (Or.inl h))
    · exact Or.inr (Or.inr (Or.inr h))
  · rintro (h | h | h | h)
    · exact Or.inl (Or.inl (Or.inr h))
    · exact Or.inl (Or.inl (Or.inl h))
    · exact Or.inl (Or.inr h)
    · exact Or.inr h

/-- C2: a global grant ending in the wildcard marker allows every request
sharing its literal stem, and a bare wildcard grant allows every request;
concretely, `"chat.*"` allows `"chat.completions.stream"` and, as the only
grant, denies `"embeddings.create"`. -/
theorem wildcard_grant_allows_stem_requests (i : AuthzInput) (g : Cap)
    (hg : g ∈ i.user.capabilities) (hstar : g.getLast? = some '*')
    (hpre : g.dropLast.isPrefixOf i.required_capability = true) :
    allow i = true ∧
    (∀ j : AuthzInput, str "*" ∈ j.user.capabilities → allow j = true) ∧
    allow chatStreamRequest = true ∧ allow embeddingsRequest = false := by
  refine ⟨?_, ?_, by decide, by decide⟩
  · have hw : allowWildcard i = true :=
      (allowWildcard_iff i).mpr ⟨g, hg, hstar, hpre⟩
    simp [allow, hw]
  · intro j hj
    have ha : allowAdminWildcard j = true := (allowAdminWildcard_iff j).mpr hj
    simp [allow, ha]

theorem wildcard_grant_allows_stem_requests_witness :
    allow chatStreamRequest = true :=
  (wildcard_grant_allows_stem_requests chatStreamRequest (str "chat.*")
    (by decide) (by decide) (by decide)).1

/-- C3: an inactive/suspended tenant membership confers no access: when the
tenant id is supplied, the membership exists with `is_active = false`, and no
global rule matches, `allow` is false even though the membership's capability
list contains the required capability. -/
theorem suspended_membership_confers_no_access (i : AuthzInput) (t : Cap)
    (m : TenantMembership) (ht : i.tenant_id = some t)
    (hm : i.user.tenant_memberships.lookup t = some m)
    (hsusp : m.is_active = false)
    (_hcap : i.required_capability ∈ m.capabilities)
    (h1 : allowAdminWildcard i = false) (h2 : allowExact i = false)
    (h3 : allowWildcard i = false) :
    allow i = false := by
  have h4 : allowTenant i = false := by
    unfold allowTenant
    simp [ht, hm, hsusp]
  simp [allow, h1, h2, h3, h4]

theorem suspended_membership_confers_no_access_witness :
    allow suspendedTenantRequest = false :=
  suspended_membership_confers_no_access suspendedTenantRequest
    (str "t1") ⟨false, [str "chat.completions"]⟩
    (by decide) (by decide) (by decide) (by decide)
    (by decide) (by decide) (by decide)

/-- C8: a matching global grant (exact, trailing-wildcard or bare wildcard)
makes `allow` true for any supplied tenant id and any tenant memberships
whatsoever — in particular for a user whose membership in the requested
tenant is suspended. -/
theorem global_grant_allows_regardless_of_tenant (i : AuthzInput)
    (tid : Option Cap) (mems : List (Cap × TenantMembership))
    (h : allowAdminWildcard i = true ∨ allowExact i = true ∨
         allowWildcard i = true) :
    allow ⟨⟨i.user.capabilities, mems⟩, tid, i.required_capability⟩ = true := by
  simp only [allow, Bool.or_eq_true]
  rcases h with h | h | h
  · exact Or.inl (Or.inl (Or.inl h))
  · exact Or.inl (Or.inl (Or.inr h))
  · exact Or.inl (Or.inr h)

theorem global_grant_allows_regardless_of_tenant_witness :
    allow suspendedWithGlobalRequest = true :=
  global_grant_allows_regardless_of_tenant
    ⟨⟨[str "chat.*"], []⟩, none, str "chat.completions"⟩
    (some (str "t1")) [(str "t1", ⟨false, [str "chat.completions"]⟩)]
    (Or.inr (Or.inr (by decide)))

/-- C9: the wildcard matcher of rule 3 is raw character-level prefix
matching with no segment-boundary check: a grant `w ++ "*"` matches exactly
the requests having `w` as a string prefix; hence the mid-segment grant
`"chat.c*"` allows `"chat.completions"`, while `"chat.*"` does not match the
bare capability `"chat"`. -/
theorem wildcard_match_is_raw_prefix_match (w r : Cap) :
    (wildcardGrantMatches (w ++ ['*']) r = true ↔ w.isPrefixOf r = true) ∧
    allow midSegmentRequest = true ∧ allow bareChatRequest = false := by
  refine ⟨?_, by decide, by decide⟩
  simp [wildcardGrantMatches, List.getLast?_concat, List.dropLast_concat]

/-- C10: in the `tenant` package, for any input whose user capability set
lacks the bare wildcard, `data_access` holds only when the requested tenant
equals the user's tenant context and that membership is active; cross-tenant
access is denied for every such input. -/
theorem data_access_only_same_active_tenant (i : TenantDataInput)
    (hno : str "*" ∉ i.user.capabilities)
    (h : data_access i = true) :
    ∃ t m, i.tenant_id = some t ∧ i.requested_tenant_id = some t ∧
      i.user.tenant_memberships.lookup t = some m ∧ m.is_active = true := by
  obtain ⟨u, tid, rtid⟩ := i
  rcases tid with _ | t
  · simp only [data_access, Bool.false_or, List.any_eq_true, beq_iff_eq] at h
    obtain ⟨c, hc, rfl⟩ := h
    exact absurd hc hno
  · rcases rtid with _ | rt
    · simp only [data_access, Bool.false_or, List.any_eq_true, beq_iff_eq] at h
      obtain ⟨c, hc, rfl⟩ := h
      exact absurd hc hno
    · simp only [data_access, Bool.or_eq_true, Bool.and_eq_true, beq_iff_eq,
        List.any_eq_true] at h
      rcases h with ⟨rfl, h2⟩ | ⟨c, hc, rfl⟩
      · cases hm : u.tenant_memberships.lookup t with
        | none => simp [hm] at h2
        | some m =>
          simp only [hm] at h2
          exact ⟨t, m, rfl, rfl, hm, h2⟩
      · exact absurd hc hno

theorem data_access_only_same_active_tenant_witness :
    ∃ t m, sameTenantDataRequest.tenant_id = some t ∧
      sameTenantDataRequest.requested_tenant_id = some t ∧
      sameTenantDataRequest.user.tenant_memberships.lookup t = some m ∧
      m.is_active = true :=
  data_access_only_same_active_tenant sameTenantDataRequest
    (by decide) (by decide)

theorem storedVersion_le_recompute (s : ScopeState) (caps roles : List Cap) :
    storedVersion s ≤ storedVersion (recompute s caps roles) := by
  cases hr : s.row with
  | none => simp [recompute, storedVersion, hr]
  | some r =>
    by_cases hc : scopeChecksum caps roles = r.checksum
    · simp [recompute, storedVersion, hr, hc]
    · simp [recompute, storedVersion, hr, hc]

theorem storedVersion_le_runRecomputes (s : ScopeState)
    (l : List (List Cap × List Cap)) :
    storedVersion s ≤ storedVersion (runRecomputes s l) := by
  induction l generalizing s with
  | nil => simp [runRecomputes]
  | cons p rest ih =>
    calc storedVersion s ≤ storedVersion (recompute s p.1 p.2) :=
          storedVersion_le_recompute s p.1 p.2
      _ ≤ storedVersion (runRecomputes (recompute s p.1 p.2) rest) :=
          ih (recompute s p.1 p.2)
      _ = storedVersion (runRecomputes s (p :: rest)) := by
          simp [runRecomputes]

/-- C4: over any sequence of recompute calls on the fixed
(user_id, tenant_id), the stored version is non-decreasing; and a recompute
on an existing row raises the version to exactly `version + 1` precisely
when the newly computed checksum differs from the stored one, leaving it
unchanged otherwise. -/
theorem recompute_version_monotone_and_increment (s : ScopeState)
    (l : List (List Cap × List Cap)) (r : ScopeVersionRow)
    (caps roles : List Cap) (h : s.row = some r) :
    storedVersion s ≤ storedVersion (runRecomputes s l) ∧
    (storedVersion (recompute s caps roles) = r.version + 1 ↔
       scopeChecksum caps roles ≠ r.checksum) ∧
    (scopeChecksum caps roles = r.checksum →
       storedVersion (recompute s caps roles) = r.version) := by
  refine ⟨storedVersion_le_runRecomputes s l, ?_, ?_⟩
  · by_cases hc : scopeChecksum caps roles = r.checksum
    · simp [recompute, storedVersion, h, hc]
    · simp [recompute, storedVersion, h, hc]
  · intro hc
    simp [recompute, storedVersion, h, hc]

theorem recompute_version_monotone_and_increment_witness :
    storedVersion (recompute chatScopeState [str "embeddings"] []) = 2 + 1 :=
  (recompute_version_monotone_and_increment chatScopeState [] chatRowV2
    [str "embeddings"] [] rfl).2.1.mpr (by decide)

theorem recompute_recompute_eq (s : ScopeState) (caps roles : List Cap) :
    recompute (recompute s caps roles) caps roles = recompute s caps roles := by
  cases hr : s.row with
  | none => simp [recompute, hr]
  | some r =>
    by_cases hc : scopeChecksum caps roles = r.checksum
    · simp [recompute, hr, hc]
    · simp [recompute, hr, hc]

/-- C6: recompute is idempotent on identical capability/role input: the
second call leaves the stored version as after the first call and appends no
new ScopeChangeEvent. -/
theorem recompute_idempotent_same_input (s : ScopeState)
    (caps roles : List Cap) :
    storedVersion (recompute (recompute s caps roles) caps roles) =
      storedVersion (recompute s caps roles) ∧
    (recompute (recompute s caps roles) caps roles).events =
      (recompute s caps roles).events := by
  rw [recompute_recompute_eq]
  exact ⟨rfl, rfl⟩

/-- C5: a session whose record captured scope version V is reported STALE by
validate whenever the current stored version is strictly greater than V, and
OK when the current version equals V. -/
theorem validate_reports_staleness (rec : SessionScopeRecord)
    (s : ScopeState) (r : ScopeVersionRow) (h : s.row = some r) :
    (rec.scope_version_at_issue < r.version →
       validate rec s = ValidationResult.STALE) ∧
    (rec.scope_version_at_issue = r.version →
       validate rec s = ValidationResult.OK) := by
  constructor
  · intro hlt
    simp [validate, h, hlt]
  · intro heq
    simp [validate, h, heq]

theorem validate_reports_staleness_witness :
    validate sessionAtV1 chatScopeState = ValidationResult.STALE :=
  (validate_reports_staleness sessionAtV1 chatScopeState chatRowV2 rfl).1
    (by decide)

theorem scopeInv_initial : scopeInv initialScopeState := by
  refine ⟨⟨?_, ?_⟩, ?_, ?_⟩ <;> simp [initialScopeState]

theorem scopeInv_recompute (s : ScopeState) (caps roles : List Cap)
    (h : scopeInv s) : scopeInv (recompute s caps roles) := by
  obtain ⟨hg, hnone, hlast⟩ := h
  cases hr : s.row with
  | none =>
    have hev : s.events = [] := hnone hr
    have hrec : recompute s caps roles =
        ⟨some ⟨1, caps, roles, scopeChecksum caps roles⟩, s.events⟩ := by
      simp [recompute, hr]
    rw [hrec]
    refine ⟨hg, ?_, ?_⟩
    · intro hcontra
      simp at hcontra
    · intro r' e _ hle
      rw [hev] at hle
      simp at hle
  | some r0 =>
    by_cases hc : scopeChecksum caps roles = r0.checksum
    · have hrec : recompute s caps roles = s := by
        simp [recompute, hr, hc]
      rw [hrec]
      exact ⟨hg, hnone, hlast⟩
    · have hrec : recompute s caps roles =
          ⟨some ⟨r0.version + 1, caps, roles, scopeChecksum caps roles⟩,
           s.events ++ [scopeDiffEvent r0 caps roles]⟩ := by
        simp [recompute, hr, hc]
      rw [hrec]
      refine ⟨⟨?_, ?_⟩, ?_, ?_⟩
      · intro e he
        rcases List.mem_append.mp he with h1 | h2
        · exact hg.1 e h1
        · rw [List.mem_singleton] at h2
          subst h2
          rfl
      · rw [List.chain'_append]
        refine ⟨hg.2, List.chain'_singleton _, ?_⟩
        intro x hx y hy
        have hxlast : s.events.getLast? = some x := hx
        have hyev : scopeDiffEvent r0 caps roles = y := by
          simpa using hy
        subst hyev
        exact hlast r0 x hr hxlast
      · intro hcontra
        simp at hcontra
      · intro r' e hrow hle
        rw [Option.some.injEq] at hrow
        rw [List.getLast?_concat] at hle
        rw [Option.some.injEq] at hle
        subst hle
        rw [← hrow]
        rfl

theorem scopeInv_runRecomputes (s : ScopeState)
    (l : List (List Cap × List Cap)) (h : scopeInv s) :
    scopeInv (runRecomputes s l) := by
  induction l generalizing s with
  | nil => simpa [runRecomputes] using h
  | cons p rest ih =>
    have hstep : scopeInv (recompute s p.1 p.2) :=
      scopeInv_recompute s p.1 p.2 h
    simpa [runRecomputes] using ih (recompute s p.1 p.2) hstep

/-- C7: for the fixed (user_id, tenant_id), the ScopeChangeEvent stream
produced by any sequence of recompute calls from the uninitialized state is
gapless and ordered: every event satisfies
`new_version = old_version + 1`, and each event's `new_version` equals the
next event's `old_version`. -/
theorem event_stream_gapless (l : List (List Cap × List Cap)) :
    gaplessEvents (runRecomputes initialScopeState l).events :=
  (scopeInv_runRecomputes initialScopeState l scopeInv_initial).1
